import Mathlib

/-! Verification development for the `insight`/`insights` deps.dev API client.

The Go sources are shallowly embedded over byte strings (`List Nat`, one
entry per byte).  The embedding covers:

* the per-byte escaping machinery of `net/url` (`shouldEscape`, `escape`,
  `PathEscape`, `QueryEscape`, `validEncoded`) for the three encoding modes
  the client exercises (path, path segment, query component);
* a fragment of `url.Parse` / `URL.String` sufficient for the inputs
  `addOptions` receives: path-plus-optional-query strings without scheme,
  authority, fragment or percent escapes in the path part (the fragment is
  delimited by the `goodPath`/`goodQuery` predicates used as hypotheses);
  `url.Parse`'s unconditional control-character rejection is modelled;
* `addOptions` (src/unnamed/part_000) together with the field/tag maps that
  `github.com/google/go-querystring` derives for the two options structs in
  the sources, and `url.Values.Encode` (sorted keys, query-escaped values);
* the relative-path builders of every endpoint method in src/api.go and
  src/unnamed/part_002, and the control flow of `Query`;
* `NewClient` of src/client.go, with the HTTP transport abstracted;
* the request construction and response handling of the inlined fetch in
  the `insight` package's `GetPackage` (src/unnamed/part_001);
* the `insights` package's generic `get` helper, which is not present under
  src/ (only its callers and tests are); it is modelled from the spec where
  indicated.
-/

namespace Insight

/-- Go strings are byte strings; a byte is represented as a `Nat`. -/
abbrev Str := List Nat

/-- Bytes of an ASCII Lean string literal, used to write concrete inputs. -/
def str (s : String) : Str := s.data.map Char.toNat

/-- The three `net/url` encoding modes exercised by the client:
`encodePath`, `encodePathSegment` and `encodeQueryComponent`. -/
inductive EscMode where
  | path
  | pathSegment
  | queryComp
deriving DecidableEq

/-- ASCII letters and digits (the first check of `net/url.shouldEscape`). -/
def isAlphaNum (c : Nat) : Bool :=
  decide ((97 ≤ c ∧ c ≤ 122) ∨ (65 ≤ c ∧ c ≤ 90) ∨ (48 ≤ c ∧ c ≤ 57))

/-- `net/url.shouldEscape` restricted to the three modes above.
Unreserved marks are `- _ . ~`; the reserved set is `$ & + , / : ; = ? @`,
kept or escaped per mode exactly as in the Go source. -/
def shouldEscape (m : EscMode) (c : Nat) : Bool :=
  if isAlphaNum c then false
  else if c = 45 ∨ c = 95 ∨ c = 46 ∨ c = 126 then false
  else if c = 36 ∨ c = 38 ∨ c = 43 ∨ c = 44 ∨ c = 47 ∨ c = 58 ∨ c = 59 ∨
          c = 61 ∨ c = 63 ∨ c = 64 then
    match m with
    | .path => decide (c = 63)
    | .pathSegment => decide (c = 47 ∨ c = 59 ∨ c = 44 ∨ c = 63)
    | .queryComp => true
  else true

/-- Upper-case hexadecimal digit, as in `net/url`'s `upperhex` table. -/
def hexDigitU (n : Nat) : Nat := if n < 10 then 48 + n else 55 + n

/-- One byte of `net/url.escape`: space becomes `+` in query components,
escaped bytes become `%XX`, everything else is copied. -/
def escapeByte (m : EscMode) (c : Nat) : Str :=
  if m = .queryComp ∧ c = 32 then [43]
  else if shouldEscape m c then [37, hexDigitU (c / 16), hexDigitU (c % 16)]
  else [c]

/-- `net/url.escape`, bytewise. -/
def escapeBytes (m : EscMode) : Str → Str
  | [] => []
  | c :: cs => escapeByte m c ++ escapeBytes m cs

/-- `url.PathEscape`. -/
def pathEscape (s : Str) : Str := escapeBytes .pathSegment s

/-- `url.QueryEscape` (used by `url.Values.Encode`). -/
def queryEscape (s : Str) : Str := escapeBytes .queryComp s

/-- `net/url.validEncoded` for `encodePath`, byte for byte. -/
def validEncodedPath (s : Str) : Bool :=
  s.all fun c =>
    if c = 33 ∨ c = 36 ∨ c = 38 ∨ c = 39 ∨ c = 40 ∨ c = 41 ∨ c = 42 ∨
       c = 43 ∨ c = 44 ∨ c = 59 ∨ c = 61 ∨ c = 58 ∨ c = 64 then true
    else if c = 91 ∨ c = 93 then true
    else if c = 37 then true
    else ! shouldEscape .path c

/-- `net/url.stringContainsCTLByte`: the check `url.Parse` applies to every
input before doing anything else. -/
def hasCTL (s : Str) : Bool := s.any fun c => decide (c < 32 ∨ c = 127)

/-- The `url.URL` fields populated by the modelled fragment of `url.Parse`
(no scheme, authority, user info or fragment appear for the inputs the
client hands to `addOptions`). -/
structure UrlM where
  path : Str
  rawPath : Str
  forceQuery : Bool
  rawQuery : Str
deriving DecidableEq

/-- Split at the first `?` (byte 63): `some (before, after)`, or `none` when
absent.  Mirrors `strings.Cut(rest, "?")`. -/
def splitFirst : Str → Option (Str × Str)
  | [] => none
  | c :: cs =>
    if c = 63 then some ([], cs)
    else (splitFirst cs).map fun pr => (c :: pr.1, pr.2)

/-- The query split of `url.parse`: a sole trailing `?` sets `ForceQuery`
and leaves the query empty; otherwise the string is cut at the first `?`. -/
def cutQuestion (s : Str) : Str × Str × Bool :=
  match splitFirst s with
  | none => (s, [], false)
  | some (p, []) => (p, [], true)
  | some (p, q) => (p, q, false)

/-- The fragment of `url.parse` for inputs without scheme, authority or
percent escapes in the path part (there `unescape` is the identity, so
`setPath` stores the path verbatim and sets `RawPath` exactly when
re-escaping would alter it). -/
def parseFragment (s : Str) : UrlM :=
  { path := (cutQuestion s).1
    rawPath :=
      if escapeBytes .path (cutQuestion s).1 = (cutQuestion s).1 then []
      else (cutQuestion s).1
    forceQuery := (cutQuestion s).2.2
    rawQuery := (cutQuestion s).2.1 }

/-- `url.URL.EscapedPath`: keep a valid `RawPath`, special-case `*`, else
re-escape `Path` (in the modelled fragment `RawPath` holds no percent
escapes, so the `unescape(RawPath) == Path` check of the source holds
whenever `RawPath` is non-empty). -/
def escapedPath (u : UrlM) : Str :=
  if u.rawPath ≠ [] ∧ validEncodedPath u.rawPath = true then u.rawPath
  else if u.path = [42] then [42]
  else escapeBytes .path u.path

/-- `url.URL.String` for the modelled fragment: the `./` guard for a colon
in the first path segment, then the escaped path, then `?` plus the raw
query when forced or non-empty. -/
def urlString (u : UrlM) : Str :=
  (if 58 ∈ (escapedPath u).takeWhile (fun c => decide (c ≠ 47)) then str "./" else []) ++
  escapedPath u ++
  (if u.forceQuery = true ∨ u.rawQuery ≠ [] then 63 :: u.rawQuery else [])

/-- Lexicographic byte order on `Str`, as Go's `sort.Strings` compares. -/
def lexLe : Str → Str → Bool
  | [], _ => true
  | _ :: _, [] => false
  | a :: as, b :: bs => if a < b then true else if b < a then false else lexLe as bs

/-- Order on `(key, value)` pairs by key, used to model the key sort in
`url.Values.Encode`. -/
def keyLe (x y : Str × Str) : Prop := lexLe x.1 y.1 = true

instance : DecidableRel keyLe := fun x y =>
  inferInstanceAs (Decidable (lexLe x.1 y.1 = true))

/-- The key sort of `url.Values.Encode` (`sort.Strings(keys)`); keys in the
modelled value lists are distinct, so any correct sort yields Go's order. -/
def sortPairs (l : List (Str × Str)) : List (Str × Str) :=
  List.insertionSort keyLe l

/-- Join with `&` (byte 38), as `url.Values.Encode` writes between entries. -/
def joinAmp : List Str → Str
  | [] => []
  | [l] => l
  | l :: l2 :: L => l ++ 38 :: joinAmp (l2 :: L)

/-- `url.Values.Encode`: sort by key, then emit `QueryEscape(k)=QueryEscape(v)`
entries joined by `&`. -/
def valuesEncode (l : List (Str × Str)) : Str :=
  joinAmp ((sortPairs l).map fun pr => queryEscape pr.1 ++ 61 :: queryEscape pr.2)

/-- The `Options` struct of src/insight_test.go: three string fields tagged
`url:"hash,omitempty"`, `url:"system,omitempty"`, `url:"version,omitempty"`. -/
structure OptionsM where
  hash : Str
  system : Str
  version : Str
deriving DecidableEq

/-- `query.Values` (github.com/google/go-querystring) applied to `Options`:
fields are visited in declaration order and a zero-valued (empty) string
field is omitted because of `omitempty`. -/
def optionsValues (o : OptionsM) : List (Str × Str) :=
  (if o.hash = [] then [] else [(str "hash", o.hash)]) ++
  (if o.system = [] then [] else [(str "system", o.system)]) ++
  (if o.version = [] then [] else [(str "version", o.version)])

/-- The `QueryOptions` struct of src/api.go lines 497-514: five string
fields tagged `hash.type`, `hash.value`, `versionKey.system`,
`versionKey.name`, `versionKey.version`, all `omitempty`. -/
structure QueryOptionsM where
  hashType : Str
  hashValue : Str
  system : Str
  name : Str
  version : Str
deriving DecidableEq

/-- `query.Values` applied to `QueryOptions` (declaration order, `omitempty`). -/
def queryOptionsValues (o : QueryOptionsM) : List (Str × Str) :=
  (if o.hashType = [] then [] else [(str "hash.type", o.hashType)]) ++
  (if o.hashValue = [] then [] else [(str "hash.value", o.hashValue)]) ++
  (if o.system = [] then [] else [(str "versionKey.system", o.system)]) ++
  (if o.name = [] then [] else [(str "versionKey.name", o.name)]) ++
  (if o.version = [] then [] else [(str "versionKey.version", o.version)])

/-- `addOptions` (src/unnamed/part_000 lines 16-29) over the modelled
`net/url` fragment.  `url.Parse`'s failure is its unconditional
control-character rejection, on which the original string is returned with
the error; otherwise the query of the parsed URL is replaced by the
encoding of the given values and the URL re-serialized.  (`query.Values`
itself cannot fail on the well-formed structs above; its result is passed
in as an association list.)  The boolean is the error flag. -/
def addOptionsM (s : Str) (vals : List (Str × Str)) : Str × Bool :=
  if hasCTL s = true then (s, true)
  else
    let u := parseFragment s
    (urlString { u with rawQuery := valuesEncode vals }, false)

/-- Relative path built by `Client.GetPackage` (src/api.go line 115). -/
def getPackagePath (system name : Str) : Str :=
  str "systems/" ++ pathEscape system ++ str "/packages/" ++ pathEscape name

/-- Relative path built by `Client.GetVersion` (src/api.go line 205). -/
def getVersionPath (system name version : Str) : Str :=
  str "systems/" ++ pathEscape system ++ str "/packages/" ++ pathEscape name ++
    str "/versions/" ++ pathEscape version

/-- Relative path built by `Client.GetDependencies` (src/api.go line 286). -/
def getDependenciesPath (system name version : Str) : Str :=
  str "systems/" ++ pathEscape system ++ str "/packages/" ++ pathEscape name ++
    str "/versions/" ++ pathEscape version ++ str ":dependencies"

/-- Relative path built by `Client.GetProject` (src/api.go line 410). -/
def getProjectPath (id : Str) : Str :=
  str "projects/" ++ pathEscape id

/-- Path built by `Client.GetProjectPackageVersions` (src/api.go line 444);
note the template starts with a slash in the source. -/
def getProjectPackageVersionsPath (id : Str) : Str :=
  str "/projects/" ++ pathEscape id ++ str ":packageversions"

/-- Path built by `Client.GetAdvisory` (src/api.go line 478); note the
template starts with a slash in the source. -/
def getAdvisoryPath (id : Str) : Str :=
  str "/advisories/" ++ pathEscape id

/-- Path built by `Client.GetRequirements` (src/unnamed/part_002 line 259);
note the template starts with a slash in the source. -/
def getRequirementsPath (system name version : Str) : Str :=
  str "/systems/" ++ pathEscape system ++ str "/packages/" ++ pathEscape name ++
    str "/versions/" ++ pathEscape version ++ str ":requirements"

/-- Control flow of `Client.Query` (src/api.go lines 519-530), with the
path constant (`u := "query"` in the source) as a parameter: when
`addOptions` reports an error it is returned to the caller at once and
`c.get` is never reached; otherwise `.ok` carries the path handed to
`c.get`. -/
def queryWith (u : Str) (o : QueryOptionsM) : Except Unit Str :=
  let r := addOptionsM u (queryOptionsValues o)
  if r.2 = true then Except.error () else Except.ok r.1

/-- `Client.Query` itself, with its hard-wired path constant. -/
def queryFlow (o : QueryOptionsM) : Except Unit Str := queryWith (str "query") o

/-- The `Client` of src/client.go: the `*http.Client` transport is
abstracted by the type `τ`. -/
structure ClientG (τ : Type) where
  basePath : Str
  client : τ

/-- The constant `basePath` of src/client.go line 11. -/
def basePathConst : Str := str "https://api.deps.dev/v3"

/-- `NewClient` (src/client.go lines 20-31): a nil transport falls back to
`http.DefaultClient` (the `defaultClient` argument), an empty endpoint
falls back to `basePath`; construction always succeeds. -/
def NewClientG {τ : Type} (defaultClient : τ) (endpoint : Str) (c : Option τ) : ClientG τ :=
  let c := match c with
    | none => defaultClient
    | some x => x
  let endpoint := if endpoint = [] then basePathConst else endpoint
  { basePath := endpoint, client := c }

/-- `PackageKey` of the `insight` package (src/unnamed/part_001). -/
structure PackageKeyM where
  system : Str
  name : Str
deriving DecidableEq

/-- `VersionKey` of the `insight` package (src/unnamed/part_001). -/
structure VersionKeyM where
  system : Str
  name : Str
  version : Str
deriving DecidableEq

/-- `Version` of the `insight` package (src/unnamed/part_001). -/
structure VersionM where
  versionKey : VersionKeyM
  publishedAt : Str
  isDefault : Bool
deriving DecidableEq

/-- `Package` of the `insight` package (src/unnamed/part_001). -/
structure PackageM where
  packageKey : PackageKeyM
  versions : List VersionM
deriving DecidableEq

/-- An HTTP request as the embedding sees it: method, URL and the header
pairs explicitly set on it. -/
structure RequestM where
  method : Str
  url : Str
  headers : List (Str × Str)
deriving DecidableEq

/-- The request built by the inlined fetch of the `insight` package's
`GetPackage` (src/unnamed/part_001 lines 60-66): the URL is
`BasePath + "/systems/" + PathEscape(system) + "/packages/" + PathEscape(name)`
and `http.NewRequest("GET", url, nil)` sets no header at all. -/
def getPackageRequest (basePath system name : Str) : RequestM :=
  { method := str "GET"
    url := basePath ++ str "/systems/" ++ pathEscape system ++
             str "/packages/" ++ pathEscape name
    headers := [] }

/-- Outcome of `io.ReadAll(resp.Body)` in the non-200 branch. -/
inductive ReadResult where
  | failed
  | ok (data : Str)
deriving DecidableEq

/-- Result of the `insight` package's `GetPackage` after the HTTP round
trip: success, an error built with `fmt.Errorf("%s", ...)` carrying the
given message, or a JSON-decoder error (whose message belongs to
`encoding/json`). -/
inductive GPResult where
  | ok (p : PackageM)
  | err (msg : Str)
  | decodeErr
deriving DecidableEq

/-- Whether a `GPResult` is a success. -/
def GPResult.isOk : GPResult → Bool
  | .ok _ => true
  | _ => false

/-- Response handling of the `insight` package's `GetPackage`
(src/unnamed/part_001 lines 72-84): on a non-200 status the body is read;
if reading fails the error message is `resp.Status` (the status line),
otherwise it is the body text; on 200 the body is JSON-decoded. -/
def getPackageRespond (statusCode : Nat) (status : Str) (body : ReadResult)
    (decoded : Option PackageM) : GPResult :=
  if statusCode ≠ 200 then
    match body with
    | .failed => .err status
    | .ok data => .err data
  else
    match decoded with
    | none => .decodeErr
    | some p => .ok p

/-- Result of the `insights` package's generic `get` helper. -/
inductive FetchResult (α : Type) where
  | ok (v : α)
  | err (msg : Str)
  | decodeErr
deriving DecidableEq

/-- Whether a `FetchResult` is a success. -/
def FetchResult.isOk {α : Type} : FetchResult α → Bool
  | .ok _ => true
  | _ => false

/-- Modelled from the spec: the `insights` package's generic `get` helper is
not under src/ (only its callers in src/api.go and its test TODO are).  Per
spec sections 4.2 and 6 and the tests in src/unnamed/part_003, it issues a
GET against `baseURL + relativePath` with header
`Accept: application/json; charset=utf-8`. -/
def getHelperRequest (base relPath : Str) : RequestM :=
  { method := str "GET"
    url := base ++ relPath
    headers := [(str "Accept", str "application/json; charset=utf-8")] }

/-- Modelled from the spec: the error message of the missing `get` helper on
a non-200 status is "the response body's text together with the status
code"; the spec fixes no concrete format, so it is rendered here as
`<code>: <body>`. -/
def getHelperErrMsg (statusCode : Nat) (body : Str) : Str :=
  str (Nat.repr statusCode) ++ str ": " ++ body

/-- Modelled from the spec: response handling of the missing `get` helper —
status 200 JSON-decodes the body into the output, any other status yields
an error whose message carries the body text and the status code. -/
def getHelperRespond {α : Type} (statusCode : Nat) (body : Str)
    (decoded : Option α) : FetchResult α :=
  if statusCode = 200 then
    match decoded with
    | none => .decodeErr
    | some v => .ok v
  else .err (getHelperErrMsg statusCode body)

/-- Bytewise list-prefix test. -/
def isPreB : Str → Str → Bool
  | [], _ => true
  | _ :: _, [] => false
  | a :: as, b :: bs => decide (a = b) && isPreB as bs

/-- Bytewise substring test: the pattern occurs contiguously. -/
def isInfB : Str → Str → Bool
  | pat, [] => isPreB pat []
  | pat, b :: bs => isPreB pat (b :: bs) || isInfB pat bs

/-- Path parts the `url.Parse` fragment is faithful for: already in
canonical path encoding (hence free of `%`, `?`, `#` and control bytes),
without a colon (which would engage Go's scheme handling) and not starting
with `//` (which would engage authority parsing). -/
def goodPath (p : Str) : Prop :=
  escapeBytes .path p = p ∧ 58 ∉ p ∧ p.take 2 ≠ [47, 47]

instance (p : Str) : Decidable (goodPath p) :=
  inferInstanceAs (Decidable (_ ∧ _ ∧ _))

/-- Query parts the fragment is faithful for: no control bytes (rejected by
`url.Parse`) and no `#` (which Go strips as a fragment first). -/
def goodQuery (q : Str) : Prop := ∀ c ∈ q, 32 ≤ c ∧ c ≠ 127 ∧ c ≠ 35

instance (q : Str) : Decidable (goodQuery q) :=
  inferInstanceAs (Decidable (∀ c ∈ q, _ ∧ _ ∧ _))

/-- All entries are bytes (Go strings contain bytes, below 256). -/
def OkBytes (l : Str) : Prop := ∀ c ∈ l, c < 256

instance (l : Str) : Decidable (OkBytes l) :=
  inferInstanceAs (Decidable (∀ c ∈ l, _))

/-- All keys and values of an association list are byte strings. -/
def ValsBytes (vals : List (Str × Str)) : Prop :=
  ∀ pr ∈ vals, OkBytes pr.1 ∧ OkBytes pr.2

instance (vals : List (Str × Str)) : Decidable (ValsBytes vals) :=
  inferInstanceAs (Decidable (∀ pr ∈ vals, _ ∧ _))

/-- The query tail `URL.String` appends after the path. -/
def qTail (f : Bool) (enc : Str) : Str :=
  if f = true ∨ enc ≠ [] then 63 :: enc else []

/-! Section: Helper lemmas about the escaping machinery -/

theorem hexDigitU_ne_47 (n : Nat) : hexDigitU n ≠ 47 := by
  unfold hexDigitU; split <;> omega

theorem hexDigitU_facts {n : Nat} (h : n < 16) :
    (48 ≤ hexDigitU n ∧ hexDigitU n ≤ 57) ∨ (65 ≤ hexDigitU n ∧ hexDigitU n ≤ 70) := by
  unfold hexDigitU; split
  · left
    omega
  · right
    omega

theorem escapeByte_length (m : EscMode) (c : Nat) : 1 ≤ (escapeByte m c).length := by
  unfold escapeByte; split
  · simp
  · split <;> simp

theorem escapeBytes_length (m : EscMode) : ∀ s : Str, s.length ≤ (escapeBytes m s).length
  | [] => Nat.le_refl _
  | c :: cs => by
    simp only [escapeBytes, List.length_append, List.length_cons]
    have h1 := escapeByte_length m c
    have h2 := escapeBytes_length m cs
    omega

theorem canonical_mem {m : EscMode} :
    ∀ {p : Str}, escapeBytes m p = p → ∀ c ∈ p, escapeByte m c = [c] := by
  intro p
  induction p with
  | nil => intro _ c hc; cases hc
  | cons a as ih =>
    intro h c hc
    have hlen := escapeBytes_length m as
    simp only [escapeBytes] at h
    rcases hEB : escapeByte m a with _ | ⟨x, xs⟩
    · have h1 := escapeByte_length m a
      rw [hEB] at h1
      simp at h1
    · rw [hEB] at h
      rcases xs with _ | ⟨y, ys⟩
      · simp only [List.cons_append, List.nil_append] at h
        have hx : x = a := (List.cons.injEq _ _ _ _ ▸ h).1
        have hrest : escapeBytes m as = as := (List.cons.injEq _ _ _ _ ▸ h).2
        rcases List.mem_cons.mp hc with rfl | hc2
        · rw [hEB, hx]
        · exact ih hrest c hc2
      · exfalso
        have hl := congrArg List.length h
        simp only [List.length_append, List.length_cons] at hl
        omega

theorem escapeByte_single {m : EscMode} {c : Nat} (h : escapeByte m c = [c]) :
    shouldEscape m c = false := by
  unfold escapeByte at h
  split at h
  · rename_i hq
    have : (43 : Nat) = c := (List.cons.injEq _ _ _ _ ▸ h).1
    omega
  · split at h
    · simp at h
    · rename_i _ hne
      cases hb : shouldEscape m c
      · rfl
      · exact absurd hb hne

theorem shouldEscape_path_facts {c : Nat} (h : shouldEscape .path c = false) :
    32 ≤ c ∧ c ≤ 126 ∧ c ≠ 63 ∧ c ≠ 35 ∧ c ≠ 37 := by
  unfold shouldEscape at h
  split at h
  · rename_i h1
    simp only [isAlphaNum, decide_eq_true_eq] at h1
    omega
  · split at h
    · rename_i _ h2
      omega
    · split at h
      · rename_i _ _ h3
        simp only [decide_eq_false_iff_not] at h
        omega
      · exact absurd h (by simp)

theorem canonical_facts {p : Str} (h : escapeBytes .path p = p) :
    ∀ c ∈ p, 32 ≤ c ∧ c ≤ 126 ∧ c ≠ 63 ∧ c ≠ 35 ∧ c ≠ 37 :=
  fun c hc => shouldEscape_path_facts (escapeByte_single (canonical_mem h c hc))

theorem hasCTL_false_of_facts {s : Str} (h : ∀ c ∈ s, 32 ≤ c ∧ c ≠ 127) :
    hasCTL s = false := by
  unfold hasCTL
  rw [List.any_eq_false]
  intro c hc
  have h2 := h c hc
  simp only [decide_eq_true_eq]
  omega

/-! Section: Helper lemmas about the `url.Parse` fragment -/

theorem splitFirst_eq_none : ∀ {s : Str}, 63 ∉ s → splitFirst s = none
  | [], _ => rfl
  | c :: cs, h => by
    have h1 : c ≠ 63 := fun hh => h (hh ▸ List.mem_cons_self c cs)
    have h2 : 63 ∉ cs := fun hh => h (List.mem_cons_of_mem c hh)
    simp [splitFirst, h1, splitFirst_eq_none h2]

theorem splitFirst_append {p : Str} (q : Str) (h : 63 ∉ p) :
    splitFirst (p ++ 63 :: q) = some (p, q) := by
  induction p with
  | nil => simp [splitFirst]
  | cons c cs ih =>
    have h1 : c ≠ 63 := fun hh => h (hh ▸ List.mem_cons_self c cs)
    have h2 : 63 ∉ cs := fun hh => h (List.mem_cons_of_mem c hh)
    simp [splitFirst, h1, ih h2]

theorem cutQuestion_noQ {p : Str} (h : 63 ∉ p) : cutQuestion p = (p, [], false) := by
  unfold cutQuestion
  rw [splitFirst_eq_none h]

theorem cutQuestion_force {p : Str} (h : 63 ∉ p) :
    cutQuestion (p ++ [63]) = (p, [], true) := by
  unfold cutQuestion
  rw [splitFirst_append [] h]

theorem cutQuestion_withQ {p q : Str} (h : 63 ∉ p) (hq : q ≠ []) :
    cutQuestion (p ++ 63 :: q) = (p, q, false) := by
  unfold cutQuestion
  rw [splitFirst_append q h]
  cases q with
  | nil => exact absurd rfl hq
  | cons a as => rfl

theorem mem_of_mem_takeWhile {f : Nat → Bool} :
    ∀ {l : Str} {a : Nat}, a ∈ l.takeWhile f → a ∈ l
  | c :: cs, a, h => by
    simp only [List.takeWhile] at h
    split at h
    · rcases List.mem_cons.mp h with rfl | h2
      · exact List.mem_cons_self _ _
      · exact List.mem_cons_of_mem _ (mem_of_mem_takeWhile h2)
    · cases h
  | [], _, h => by cases h

theorem urlm_update (p rp : Str) (f : Bool) (q enc : Str) :
    ({ UrlM.mk p rp f q with rawQuery := enc } : UrlM) = ⟨p, rp, f, enc⟩ := rfl

theorem urlString_canonical {p enc : Str} {f : Bool}
    (hc : escapeBytes .path p = p) (h58 : 58 ∉ p) :
    urlString ⟨p, [], f, enc⟩ = p ++ qTail f enc := by
  have hEP : escapedPath ⟨p, [], f, enc⟩ = p := by
    unfold escapedPath
    rw [if_neg (fun hand => hand.1 rfl)]
    by_cases h42 : p = [42]
    · rw [if_pos h42, h42]
    · rw [if_neg h42]
      exact hc
  unfold urlString
  rw [hEP, if_neg (fun hmem => h58 (mem_of_mem_takeWhile hmem)), List.nil_append]
  rfl

theorem addOptionsM_noQ {p : Str} (hp : goodPath p) (vals : List (Str × Str)) :
    addOptionsM p vals = (p ++ qTail false (valuesEncode vals), false) := by
  obtain ⟨hc, h58, _⟩ := hp
  have hfacts := canonical_facts hc
  have hCTL : hasCTL p = false :=
    hasCTL_false_of_facts fun c h => ⟨(hfacts c h).1, by have := (hfacts c h).2.1; omega⟩
  have h63 : 63 ∉ p := fun hm => (hfacts 63 hm).2.2.1 rfl
  unfold addOptionsM
  rw [if_neg (by simp [hCTL])]
  simp only [parseFragment, cutQuestion_noQ h63]
  rw [if_pos hc]
  show (urlString ⟨p, [], false, valuesEncode vals⟩, false) = _
  rw [urlString_canonical hc h58]

theorem addOptionsM_withQ {p q : Str} (hp : goodPath p) (hq : goodQuery q)
    (hqe : q ≠ []) (vals : List (Str × Str)) :
    addOptionsM (p ++ 63 :: q) vals = (p ++ qTail false (valuesEncode vals), false) := by
  obtain ⟨hc, h58, _⟩ := hp
  have hfacts := canonical_facts hc
  have h63 : 63 ∉ p := fun hm => (hfacts 63 hm).2.2.1 rfl
  have hCTL : hasCTL (p ++ 63 :: q) = false := by
    apply hasCTL_false_of_facts
    intro c hcm
    rcases List.mem_append.mp hcm with hie | hie
    · exact ⟨(hfacts c hie).1, by have := (hfacts c hie).2.1; omega⟩
    · rcases List.mem_cons.mp hie with rfl | hie2
      · omega
      · exact ⟨(hq c hie2).1, (hq c hie2).2.1⟩
  unfold addOptionsM
  rw [if_neg (by simp [hCTL])]
  simp only [parseFragment, cutQuestion_withQ h63 hqe]
  rw [if_pos hc]
  show (urlString ⟨p, [], false, valuesEncode vals⟩, false) = _
  rw [urlString_canonical hc h58]

theorem addOptionsM_force {p : Str} (hp : goodPath p) (vals : List (Str × Str)) :
    addOptionsM (p ++ [63]) vals = (p ++ qTail true (valuesEncode vals), false) := by
  obtain ⟨hc, h58, _⟩ := hp
  have hfacts := canonical_facts hc
  have h63 : 63 ∉ p := fun hm => (hfacts 63 hm).2.2.1 rfl
  have hCTL : hasCTL (p ++ [63]) = false := by
    apply hasCTL_false_of_facts
    intro c hcm
    rcases List.mem_append.mp hcm with hie | hie
    · exact ⟨(hfacts c hie).1, by have := (hfacts c hie).2.1; omega⟩
    · rcases List.mem_cons.mp hie with rfl | hie2
      · omega
      · cases hie2
  unfold addOptionsM
  rw [if_neg (by simp [hCTL])]
  simp only [parseFragment, cutQuestion_force h63]
  rw [if_pos hc]
  show (urlString ⟨p, [], true, valuesEncode vals⟩, false) = _
  rw [urlString_canonical hc h58]

/-! Section: Bytes produced by the query encoder -/

theorem shouldEscape_query_facts {c : Nat} (h : shouldEscape .queryComp c = false) :
    32 ≤ c ∧ c ≤ 126 ∧ c ≠ 35 ∧ c ≠ 63 := by
  unfold shouldEscape at h
  split at h
  · rename_i h1
    simp only [isAlphaNum, decide_eq_true_eq] at h1
    omega
  · split at h
    · rename_i _ h2
      omega
    · split at h
      · exact absurd h (by simp)
      · exact absurd h (by simp)

theorem mem_escapeBytes {m : EscMode} :
    ∀ {s : Str} {x : Nat}, x ∈ escapeBytes m s → ∃ c ∈ s, x ∈ escapeByte m c
  | c :: cs, x, h => by
    simp only [escapeBytes] at h
    rcases List.mem_append.mp h with h1 | h2
    · exact ⟨c, List.mem_cons_self _ _, h1⟩
    · obtain ⟨d, hd, hx⟩ := mem_escapeBytes h2
      exact ⟨d, List.mem_cons_of_mem _ hd, hx⟩
  | [], _, h => by cases h

theorem queryEscape_bytes {v : Str} (hB : OkBytes v) :
    ∀ x ∈ queryEscape v, 32 ≤ x ∧ x ≤ 126 ∧ x ≠ 35 ∧ x ≠ 63 := by
  intro x hx
  obtain ⟨c, hc, hxc⟩ := mem_escapeBytes hx
  have hcb := hB c hc
  unfold escapeByte at hxc
  split at hxc
  · rcases List.mem_cons.mp hxc with rfl | h0
    · omega
    · cases h0
  · split at hxc
    · have hd1 : c / 16 < 16 := by omega
      have hd2 : c % 16 < 16 := by omega
      have hf1 := hexDigitU_facts hd1
      have hf2 := hexDigitU_facts hd2
      rcases List.mem_cons.mp hxc with rfl | h0
      · omega
      rcases List.mem_cons.mp h0 with rfl | h1
      · rcases hf1 with hf | hf <;> omega
      rcases List.mem_cons.mp h1 with rfl | h2
      · rcases hf2 with hf | hf <;> omega
      · cases h2
    · rcases List.mem_cons.mp hxc with rfl | h0
      · rename_i hne
        have hf : shouldEscape .queryComp x = false := by
          cases hb : shouldEscape .queryComp x
          · rfl
          · exact absurd hb hne
        have := shouldEscape_query_facts hf
        omega
      · cases h0

theorem mem_joinAmp : ∀ {L : List Str} {x : Nat}, x ∈ joinAmp L → x = 38 ∨ ∃ l ∈ L, x ∈ l
  | [], _, h => by cases h
  | [l], x, h => by
    right
    exact ⟨l, List.mem_cons_self _ _, h⟩
  | l :: l2 :: L, x, h => by
    simp only [joinAmp] at h
    rcases List.mem_append.mp h with h1 | h2
    · right
      exact ⟨l, List.mem_cons_self _ _, h1⟩
    · rcases List.mem_cons.mp h2 with rfl | h3
      · left
        rfl
      · rcases mem_joinAmp h3 with h4 | ⟨l3, hl3, hx⟩
        · left
          exact h4
        · right
          exact ⟨l3, List.mem_cons_of_mem _ hl3, hx⟩

theorem valuesEncode_bytes {vals : List (Str × Str)} (hB : ValsBytes vals) :
    ∀ x ∈ valuesEncode vals, 32 ≤ x ∧ x ≤ 126 ∧ x ≠ 35 ∧ x ≠ 63 := by
  intro x hx
  unfold valuesEncode at hx
  rcases mem_joinAmp hx with rfl | ⟨l, hl, hxl⟩
  · omega
  · obtain ⟨pr, hpr, rfl⟩ := List.mem_map.mp hl
    have hpr2 : pr ∈ vals :=
      (List.Perm.mem_iff (List.perm_insertionSort keyLe vals)).mp hpr
    rcases List.mem_append.mp hxl with h1 | h2
    · exact queryEscape_bytes (hB pr hpr2).1 x h1
    · rcases List.mem_cons.mp h2 with rfl | h3
      · omega
      · exact queryEscape_bytes (hB pr hpr2).2 x h3

theorem valuesEncode_goodQuery {vals : List (Str × Str)} (hB : ValsBytes vals) :
    goodQuery (valuesEncode vals) := by
  intro c hc
  have := valuesEncode_bytes hB c hc
  exact ⟨this.1, by omega, this.2.2.1⟩

theorem valuesEncode_no63 {vals : List (Str × Str)} (hB : ValsBytes vals) :
    63 ∉ valuesEncode vals :=
  fun hm => (valuesEncode_bytes hB 63 hm).2.2.2 rfl

/-! Section: The lexicographic key order -/

theorem lexLe_total : ∀ a b : Str, lexLe a b = true ∨ lexLe b a = true
  | [], _ => Or.inl rfl
  | _ :: _, [] => Or.inr rfl
  | a :: as, b :: bs => by
    rcases Nat.lt_trichotomy a b with h | h | h
    · left
      simp [lexLe, h]
    · subst h
      rcases lexLe_total as bs with h2 | h2 <;>
        simp [lexLe, h2, Nat.lt_irrefl]
    · right
      simp [lexLe, h]

theorem lexLe_trans : ∀ a b c : Str, lexLe a b = true → lexLe b c = true → lexLe a c = true
  | [], _, _, _, _ => rfl
  | _ :: _, [], _, h1, _ => by cases h1
  | _ :: _, _ :: _, [], _, h2 => by cases h2
  | a :: as, b :: bs, c :: cs, h1, h2 => by
    simp only [lexLe] at h1 h2 ⊢
    by_cases hab : a < b
    · by_cases hbc : b < c
      · rw [if_pos (by omega)]
      · rw [if_neg hbc] at h2
        by_cases hcb : c < b
        · rw [if_pos hcb] at h2
          cases h2
        · have hbe : b = c := by omega
          subst hbe
          rw [if_pos hab]
    · rw [if_neg hab] at h1
      by_cases hba : b < a
      · rw [if_pos hba] at h1
        cases h1
      · have hae : a = b := by omega
        subst hae
        by_cases hac : a < c
        · rw [if_pos hac]
        · rw [if_neg hac] at h2 ⊢
          by_cases hca : c < a
          · rw [if_pos hca] at h2
            cases h2
          · rw [if_neg hca] at h2 ⊢
            rw [if_neg hba] at h1
            exact lexLe_trans as bs cs h1 h2

/-! Section: Substring machinery -/

theorem isPreB_append_self : ∀ l t : Str, isPreB l (l ++ t) = true
  | [], _ => rfl
  | a :: as, t => by simp [isPreB, isPreB_append_self as t]

theorem isPreB_refl (l : Str) : isPreB l l = true := by
  have h := isPreB_append_self l []
  rwa [List.append_nil] at h

theorem isInfB_of_pre : ∀ {pat s : Str}, isPreB pat s = true → isInfB pat s = true
  | _, [], h => h
  | _, _ :: _, h => by simp [isInfB, h]

theorem isInfB_append_left :
    ∀ (s : Str) {pat t : Str}, isInfB pat t = true → isInfB pat (s ++ t) = true
  | [], _, _, h => h
  | c :: cs, pat, t, h => by
    simp only [List.cons_append, isInfB, List.append_eq]
    rw [isInfB_append_left cs h]
    simp

/-! Section: No slash survives path-segment escaping -/

theorem pathEscape_no_slash (s : Str) : 47 ∉ pathEscape s := by
  intro hm
  obtain ⟨c, _, hxc⟩ := mem_escapeBytes hm
  unfold escapeByte at hxc
  split at hxc
  · rename_i hq
    exact EscMode.noConfusion hq.1
  · split at hxc
    · rcases List.mem_cons.mp hxc with h37 | h0
      · omega
      rcases List.mem_cons.mp h0 with hh | h1
      · exact hexDigitU_ne_47 _ hh.symm
      rcases List.mem_cons.mp h1 with hh | h2
      · exact hexDigitU_ne_47 _ hh.symm
      · cases h2
    · rcases List.mem_cons.mp hxc with hh | h0
      · rename_i hne
        rw [← hh] at hne
        exact hne (by decide)
      · cases h0

/-- Re-serializing after replacing the query is stable: running `addOptions`
on its own output (path part canonical) reproduces that output. -/
theorem addOptionsM_stable {p : Str} (hp : goodPath p) {vals : List (Str × Str)}
    (hB : ValsBytes vals) :
    addOptionsM (p ++ qTail false (valuesEncode vals)) vals =
      (p ++ qTail false (valuesEncode vals), false) := by
  by_cases henc : valuesEncode vals = []
  · have hqt : qTail false (valuesEncode vals) = [] := by simp [qTail, henc]
    rw [hqt, List.append_nil, addOptionsM_noQ hp, hqt, List.append_nil]
  · have hqt : qTail false (valuesEncode vals) = 63 :: valuesEncode vals := by
      simp [qTail, henc]
    rw [hqt, addOptionsM_withQ hp (valuesEncode_goodQuery hB) henc, hqt]

/-! Section: Claim theorems -/

/-- C1, counterexample: with status 404 ("404 Not Found") and body
`"package not found"`, the inlined fetch of the `insight` package's
`GetPackage` returns an error whose message is the body text alone, and the
status code `404` does not occur in that message — so the message is not
"the response body's text together with the status code". -/
theorem getPackage_error_message_lacks_status_code :
    getPackageRespond 404 (str "404 Not Found") (.ok (str "package not found"))
        (none : Option PackageM) = .err (str "package not found") ∧
    isInfB (str "404") (str "package not found") = false := by
  decide

/-- C1, amended: for every non-200 status neither fetch path ever returns a
success; the `insight` package's `GetPackage` produces the error message
from the body text alone (status line alone when the body is unreadable),
while the `insights` `get` helper (modelled from the spec, absent from
src/) carries both the body text and the status code in its message. -/
theorem non200_fetch_error_shapes (sc : Nat) (st body : Str)
    (dec dec2 : Option PackageM) (h : sc ≠ 200) :
    (getPackageRespond sc st (.ok body) dec).isOk = false ∧
    getPackageRespond sc st (.ok body) dec = .err body ∧
    (getPackageRespond sc st .failed dec).isOk = false ∧
    (getHelperRespond sc body dec2).isOk = false ∧
    isInfB body (getHelperErrMsg sc body) = true ∧
    isInfB (str (Nat.repr sc)) (getHelperErrMsg sc body) = true := by
  have h200 : ¬sc = 200 := h
  refine ⟨?_, ?_, ?_, ?_, ?_, ?_⟩
  · simp [getPackageRespond, h, GPResult.isOk]
  · simp [getPackageRespond, h]
  · simp [getPackageRespond, h, GPResult.isOk]
  · simp [getHelperRespond, h200, FetchResult.isOk]
  · exact isInfB_append_left _ (isInfB_of_pre (isPreB_refl body))
  · unfold getHelperErrMsg
    rw [List.append_assoc]
    exact isInfB_of_pre (isPreB_append_self _ _)

/-- C1, witness for the amended theorem at status 404 with body
`"package not found"`. -/
theorem non200_fetch_error_shapes_witness :
    (404 : Nat) ≠ 200 ∧
    getPackageRespond 404 (str "404 Not Found") (.ok (str "package not found"))
        (none : Option PackageM) = .err (str "package not found") ∧
    isInfB (str (Nat.repr 404)) (getHelperErrMsg 404 (str "package not found")) = true :=
  ⟨by decide,
   (non200_fetch_error_shapes 404 (str "404 Not Found") (str "package not found")
      none none (by decide)).2.1,
   (non200_fetch_error_shapes 404 (str "404 Not Found") (str "package not found")
      none none (by decide)).2.2.2.2.2⟩

/-- C2: every endpoint path builder applies `url.PathEscape` to each
caller-supplied identifier individually inside its fixed template; no
escaped identifier can contain a `/` byte (47), so it occupies a single
path segment; and `GetVersion` with name `rsc.io/github` yields a path
containing `packages/rsc.io%2Fgithub/versions/`. -/
theorem endpoint_paths_escape_identifiers (system name version id s : Str) :
    47 ∉ pathEscape s ∧
    getPackagePath system name =
      str "systems/" ++ pathEscape system ++ str "/packages/" ++ pathEscape name ∧
    getVersionPath system name version =
      str "systems/" ++ pathEscape system ++ str "/packages/" ++ pathEscape name ++
        str "/versions/" ++ pathEscape version ∧
    getDependenciesPath system name version =
      getVersionPath system name version ++ str ":dependencies" ∧
    getProjectPath id = str "projects/" ++ pathEscape id ∧
    getProjectPackageVersionsPath id =
      str "/projects/" ++ pathEscape id ++ str ":packageversions" ∧
    getAdvisoryPath id = str "/advisories/" ++ pathEscape id ∧
    getRequirementsPath system name version =
      str "/systems/" ++ pathEscape system ++ str "/packages/" ++ pathEscape name ++
        str "/versions/" ++ pathEscape version ++ str ":requirements" ∧
    isInfB (str "packages/rsc.io%2Fgithub/versions/")
      (getVersionPath (str "go") (str "rsc.io/github") (str "v0.4.1")) = true :=
  ⟨pathEscape_no_slash s, rfl, rfl, rfl, rfl, rfl, rfl, rfl, by decide⟩

/-- C3: evaluating the path builders shows `GetAdvisory`,
`GetProjectPackageVersions` and `GetRequirements` hand the `get` helper
paths that begin with the separator `/` (byte 47), while the other
methods' paths begin with `s` (byte 115) of `systems/` — the code violates
the claimed invariant for exactly those three methods. -/
theorem leading_slash_paths_eval :
    getAdvisoryPath (str "GHSA-2qrg-x229-3v8q") =
      str "/advisories/GHSA-2qrg-x229-3v8q" ∧
    (getAdvisoryPath (str "GHSA-2qrg-x229-3v8q")).take 1 = [47] ∧
    (getProjectPackageVersionsPath (str "github.com/robpike/lisp")).take 1 = [47] ∧
    (getRequirementsPath (str "npm") (str "react") (str "18.2.0")).take 1 = [47] ∧
    (getPackagePath (str "go") (str "foo")).take 1 = [115] ∧
    (getVersionPath (str "go") (str "rsc.io/github") (str "v0.4.1")).take 1 = [115] := by
  decide

/-- C4, counterexample: with the all-zero options struct, `addOptions` on
the path `"a b"` returns `"a%20b"` with no error — the parsed URL is
re-serialized in escaped form, not returned unchanged. -/
theorem addOptions_space_path_changed :
    addOptionsM (str "a b") (optionsValues ⟨[], [], []⟩) = (str "a%20b", false) ∧
    str "a%20b" ≠ str "a b" := by
  decide

/-- C4, amended: a zero-valued field never contributes its key to the
encoded values; and when every field is zero `addOptions` appends no `?`
and returns the input unchanged provided the input is an already
canonically-escaped path (as all paths the library passes are) — inputs
the URL parser re-escapes, such as `"a b"`, come back re-serialized
instead. -/
theorem addOptions_omits_zero_fields (s : Str) (o : OptionsM) (hp : goodPath s) :
    (o.hash = [] → str "hash" ∉ (optionsValues o).map Prod.fst) ∧
    (o.system = [] → str "system" ∉ (optionsValues o).map Prod.fst) ∧
    (o.version = [] → str "version" ∉ (optionsValues o).map Prod.fst) ∧
    (o.hash = [] → o.system = [] → o.version = [] →
      addOptionsM s (optionsValues o) = (s, false)) := by
  refine ⟨?_, ?_, ?_, ?_⟩
  · intro hz
    by_cases hs : o.system = [] <;> by_cases hv : o.version = [] <;>
      simp [optionsValues, hz, hs, hv] <;> decide
  · intro hz
    by_cases hh : o.hash = [] <;> by_cases hv : o.version = [] <;>
      simp [optionsValues, hz, hh, hv] <;> decide
  · intro hz
    by_cases hh : o.hash = [] <;> by_cases hs : o.system = [] <;>
      simp [optionsValues, hz, hh, hs] <;> decide
  · intro hz1 hz2 hz3
    have hov : optionsValues o = [] := by simp [optionsValues, hz1, hz2, hz3]
    rw [hov, addOptionsM_noQ hp]
    have hqt : qTail false (valuesEncode []) = [] := by decide
    rw [hqt, List.append_nil]

/-- C4, witness for the amended theorem at path `/a` (a test vector of
src/insight_test.go) and the all-zero options. -/
theorem addOptions_omits_zero_fields_witness :
    goodPath (str "/a") ∧
    addOptionsM (str "/a") (optionsValues ⟨[], [], []⟩) = (str "/a", false) :=
  ⟨by decide,
   (addOptions_omits_zero_fields (str "/a") ⟨[], [], []⟩ (by decide)).2.2.2 rfl rfl rfl⟩

/-- C5: the encoder sorts the parameters by key (the key list of the sorted
pairs is pairwise in lexicographic byte order), and on the test vector of
src/insight_test.go `addOptions` produces exactly
`/a/b/c?hash=ulXBPXrC%2FUTfnMgHRFVxmjPzdbk%3D&system=npm&version=18.2.0`,
with percent-encoded values. -/
theorem addOptions_sorted_query_encoding :
    (∀ vals : List (Str × Str),
        List.Pairwise (fun k1 k2 : Str × Str => lexLe k1.1 k2.1 = true) (sortPairs vals)) ∧
    addOptionsM (str "/a/b/c")
        (optionsValues ⟨str "ulXBPXrC/UTfnMgHRFVxmjPzdbk=", str "npm", str "18.2.0"⟩) =
      (str "/a/b/c?hash=ulXBPXrC%2FUTfnMgHRFVxmjPzdbk%3D&system=npm&version=18.2.0",
        false) := by
  constructor
  · intro vals
    haveI : IsTotal (Str × Str) keyLe := ⟨fun a b => lexLe_total a.1 b.1⟩
    haveI : IsTrans (Str × Str) keyLe := ⟨fun a b c _ _ => by
      rename_i h1 h2
      exact lexLe_trans a.1 b.1 c.1 h1 h2⟩
    have hs : List.Pairwise keyLe (sortPairs vals) :=
      List.sorted_insertionSort keyLe vals
    exact hs
  · decide

/-- C6: on any input rejected by the URL parser (in the modelled fragment:
inputs holding a control byte, which Go's `url.Parse` refuses outright),
`addOptions` returns the original string unmodified together with the
error, and `Query`'s control flow returns that error to the caller without
ever reaching `c.get`. -/
theorem addOptions_parse_error_before_get :
    (∀ (s : Str) (vals : List (Str × Str)), hasCTL s = true →
        addOptionsM s vals = (s, true)) ∧
    (∀ (u : Str) (o : QueryOptionsM), hasCTL u = true →
        queryWith u o = Except.error ()) := by
  constructor
  · intro s vals h
    unfold addOptionsM
    rw [if_pos h]
  · intro u o h
    have ha : addOptionsM u (queryOptionsValues o) = (u, true) := by
      unfold addOptionsM
      rw [if_pos h]
    unfold queryWith
    rw [ha]
    simp

/-- C6, witness at the input `"a\nb"`, whose newline byte Go's parser
rejects. -/
theorem addOptions_parse_error_before_get_witness :
    hasCTL (str "a\nb") = true ∧
    addOptionsM (str "a\nb") [] = (str "a\nb", true) ∧
    queryWith (str "a\nb") ⟨[], [], [], [], []⟩ = Except.error () :=
  ⟨by decide,
   addOptions_parse_error_before_get.1 (str "a\nb") [] (by decide),
   addOptions_parse_error_before_get.2 (str "a\nb") ⟨[], [], [], [], []⟩ (by decide)⟩

/-- C7: `NewClient` always succeeds and returns a client whose base path is
the fixed service root `https://api.deps.dev/v3` when the endpoint is
empty and the endpoint itself otherwise, and whose transport is the
default one exactly when none was supplied. -/
theorem newClient_defaults {τ : Type} (d : τ) (endpoint : Str) (c : Option τ) :
    (NewClientG d endpoint c).basePath =
      (if endpoint = [] then basePathConst else endpoint) ∧
    (NewClientG d endpoint c).client = c.getD d := by
  cases c <;> simp [NewClientG, Option.getD]

/-- C8, counterexample: the request the `insight` package's `GetPackage`
builds (via `http.NewRequest("GET", url, nil)`) carries an empty header
set — in particular no `Accept` header — refuting the claim that every
fetch request carries `Accept: application/json; charset=utf-8`. -/
theorem getPackage_request_no_accept_header :
    (getPackageRequest basePathConst (str "bar") (str "baz")).headers = [] ∧
    (getPackageRequest basePathConst (str "bar") (str "baz")).method = str "GET" := by
  decide

/-- C8, amended: every fetch request is a GET; the `insights` `get` helper
(modelled from the spec, absent from src/) sets
`Accept: application/json; charset=utf-8`, while the inlined fetch of the
`insight` package's `GetPackage` sets no header at all. -/
theorem requests_get_accept_shapes (base relPath system name : Str) :
    (getPackageRequest base system name).method = str "GET" ∧
    (getPackageRequest base system name).headers = [] ∧
    (getHelperRequest base relPath).method = str "GET" ∧
    (str "Accept", str "application/json; charset=utf-8") ∈
      (getHelperRequest base relPath).headers := by
  refine ⟨rfl, rfl, rfl, ?_⟩
  simp [getHelperRequest]

/-- C9: the query already present in the input is discarded outright — the
result does not depend on it — and `addOptions` is idempotent: re-running
it on its own output (with or without a query in the original input)
reproduces the output, since the emitted query is exactly the encoding of
the options. -/
theorem addOptions_discards_query_and_idempotent :
    (∀ (p q q2 : Str) (vals : List (Str × Str)), goodPath p → goodQuery q →
        goodQuery q2 → q ≠ [] → q2 ≠ [] →
        addOptionsM (p ++ 63 :: q) vals = addOptionsM (p ++ 63 :: q2) vals) ∧
    (∀ (p q : Str) (vals : List (Str × Str)), goodPath p → goodQuery q → q ≠ [] →
        ValsBytes vals →
        addOptionsM (addOptionsM (p ++ 63 :: q) vals).1 vals =
          addOptionsM (p ++ 63 :: q) vals) ∧
    (∀ (p : Str) (vals : List (Str × Str)), goodPath p → ValsBytes vals →
        addOptionsM (addOptionsM p vals).1 vals = addOptionsM p vals) := by
  refine ⟨?_, ?_, ?_⟩
  · intro p q q2 vals hp hq hq2 hne hne2
    rw [addOptionsM_withQ hp hq hne, addOptionsM_withQ hp hq2 hne2]
  · intro p q vals hp hq hne hB
    rw [addOptionsM_withQ hp hq hne]
    show addOptionsM (p ++ qTail false (valuesEncode vals)) vals =
      (p ++ qTail false (valuesEncode vals), false)
    exact addOptionsM_stable hp hB
  · intro p vals hp hB
    rw [addOptionsM_noQ hp]
    show addOptionsM (p ++ qTail false (valuesEncode vals)) vals =
      (p ++ qTail false (valuesEncode vals), false)
    exact addOptionsM_stable hp hB

/-- C9, witness: concrete discard (`/a?x=1` and `/a?y=2` give the same
result) and idempotence at `/a?x=1`, with options `{system: "npm"}`. -/
theorem addOptions_discards_query_and_idempotent_witness :
    goodPath (str "/a") ∧
    addOptionsM (str "/a" ++ 63 :: str "x=1") (optionsValues ⟨[], str "npm", []⟩) =
      addOptionsM (str "/a" ++ 63 :: str "y=2") (optionsValues ⟨[], str "npm", []⟩) ∧
    addOptionsM
        (addOptionsM (str "/a" ++ 63 :: str "x=1") (optionsValues ⟨[], str "npm", []⟩)).1
        (optionsValues ⟨[], str "npm", []⟩) =
      addOptionsM (str "/a" ++ 63 :: str "x=1") (optionsValues ⟨[], str "npm", []⟩) :=
  ⟨by decide,
   addOptions_discards_query_and_idempotent.1 (str "/a") (str "x=1") (str "y=2")
     (optionsValues ⟨[], str "npm", []⟩) (by decide) (by decide) (by decide)
     (by decide) (by decide),
   addOptions_discards_query_and_idempotent.2.1 (str "/a") (str "x=1")
     (optionsValues ⟨[], str "npm", []⟩) (by decide) (by decide) (by decide)
     (by decide)⟩

/-- C10: in the `insight` package's `GetPackage`, a non-200 status with an
unreadable body yields the error message `resp.Status` (the status line),
and a non-200 status never yields a success on any branch. -/
theorem getPackage_unreadable_body_status_line (sc : Nat) (st body : Str)
    (dec : Option PackageM) (h : sc ≠ 200) :
    getPackageRespond sc st .failed dec = .err st ∧
    (getPackageRespond sc st .failed dec).isOk = false ∧
    (getPackageRespond sc st (.ok body) dec).isOk = false := by
  refine ⟨?_, ?_, ?_⟩ <;> simp [getPackageRespond, h, GPResult.isOk]

/-- C10, witness at status 404 with status line `404 Not Found`. -/
theorem getPackage_unreadable_body_status_line_witness :
    (404 : Nat) ≠ 200 ∧
    getPackageRespond 404 (str "404 Not Found") .failed (none : Option PackageM) =
      .err (str "404 Not Found") :=
  ⟨by decide,
   (getPackage_unreadable_body_status_line 404 (str "404 Not Found") []
      none (by decide)).1⟩

end Insight
